import Mathlib

/-!
Shallow embedding of the casbin pgx adapter's transactional policy-mutation
and filtering logic.  Tables are lists of stored rows; each adapter operation
is a pure function from the pre-call stored table to an outcome carrying the
post-call stored table (the error path returns the original table, embedding
the transaction-rollback contract of the source).
-/

namespace PgxAdapter

/-- The empty string, named so it can be passed as a default argument. -/
def blank : String := ""

/-- A stored row of the casbin_rule table: `ptype` is non-null, the six
value columns `v0..v5` are nullable (`Option`). -/
structure Row where
  ptype : String
  v0 : Option String
  v1 : Option String
  v2 : Option String
  v3 : Option String
  v4 : Option String
  v5 : Option String
deriving DecidableEq, Repr

/-- The six value columns of a row, in column order. -/
def Row.valsList (r : Row) : List (Option String) :=
  [r.v0, r.v1, r.v2, r.v3, r.v4, r.v5]

/-- Column access by index 0..5 (out-of-range reads as null). -/
def Row.col (r : Row) (i : Nat) : Option String :=
  r.valsList.getD i none

/-- The stored table: rows in insertion (`id`) order. -/
abbrev Table := List Row

/-- Errors surfaced by the adapter operations.  `backend` stands for a
statement-execution error wrapped and returned as-is by the source, such
as the duplicate-key error an UPDATE raises against the unique index. -/
inductive Err where
  | alreadyExists
  | notFound
  | invalidArgument
  | backend
deriving DecidableEq, Repr

/-- Outcome of a mutating call: optional error plus the post-call stored
table (equal to the pre-call table whenever the call failed, since every
multi-step operation rolls its transaction back on failure). -/
structure MutRes where
  err : Option Err
  table : Table
deriving DecidableEq, Repr

/-- Outcome of `UpdateFilteredPolicies`: error, post-call table, and the
returned replaced-rules list. -/
structure UpdFRes where
  err : Option Err
  table : Table
  replaced : List (List String)
deriving DecidableEq, Repr

/-- Value written to column `i` for rule field `i`: the field value when it
exists and is non-empty, otherwise null (`i < len(rule) && rule[i] != ""`
in the source). -/
def enc (rule : List String) (i : Nat) : Option String :=
  let s := rule.getD i blank
  if s = blank then none else some s

/-- The six encoded value columns of a rule. -/
def encVals (rule : List String) : List (Option String) :=
  [enc rule 0, enc rule 1, enc rule 2, enc rule 3, enc rule 4, enc rule 5]

/-- Encode a rule as a stored row under policy type `p`. -/
def toRow (p : String) (rule : List String) : Row :=
  ⟨p, enc rule 0, enc rule 1, enc rule 2, enc rule 3, enc rule 4, enc rule 5⟩

/-- Decode a row back to a policy line: the ptype followed by exactly the
non-null column values in order (absent values are omitted). -/
def fromRow (r : Row) : List String :=
  r.ptype :: r.valsList.filterMap id

/-- Decode a row without the ptype prefix, as `UpdateFilteredPoliciesCtx`
does when building its returned replaced-rules list. -/
def decodeNoPtype (r : Row) : List String :=
  r.valsList.filterMap id

/-- Uniqueness key of a row under the table's unique index
`(ptype, COALESCE(v0,''), ..., COALESCE(v5,''))`. -/
def keyOf (r : Row) : String × List String :=
  (r.ptype, r.valsList.map (fun o => o.getD blank))

/-- Whether a list contains two equal elements. -/
def hasDup : List (String × List String) → Bool
  | [] => false
  | x :: xs => xs.contains x || hasDup xs

/-- Condition under which the backing store reports a uniqueness violation
for a single multi-row insert of `rows` into table `t`: some inserted row
collides with a stored row, or two inserted rows collide with each other. -/
def dupCond (t : Table) (rows : List Row) : Bool :=
  rows.any (fun r => (t.map keyOf).contains (keyOf r)) || hasDup (rows.map keyOf)

/-- Semantics of one multi-row INSERT statement against the unique index:
it either appends every row or fails as a whole with a uniqueness
violation, leaving the table unchanged. -/
def insertMany (t : Table) (rows : List Row) : Except Err Table :=
  if dupCond t rows then .error .alreadyExists else .ok (t ++ rows)

/-- Exact-match predicate for one rule: equality on ptype plus, per value
column, equality to the encoded field (which is an IS NULL constraint when
the field is absent or empty). -/
def matchesExact (p : String) (rule : List String) (row : Row) : Bool :=
  row.ptype == p && row.valsList == encVals rule

/-- `AddPolicyCtx`: single-row insert; uniqueness violation reports
already-exists and leaves the table unchanged. -/
def addPolicy (t : Table) (p : String) (rule : List String) : MutRes :=
  match insertMany t [toRow p rule] with
  | .ok t2 => ⟨none, t2⟩
  | .error e => ⟨some e, t⟩

/-- `AddPoliciesCtx`: empty batch is a no-op success; otherwise all rows go
through one multi-row insert statement. -/
def addPolicies (t : Table) (p : String) (rules : List (List String)) : MutRes :=
  if rules.isEmpty then ⟨none, t⟩
  else
    match insertMany t (rules.map (toRow p)) with
    | .ok t2 => ⟨none, t2⟩
    | .error e => ⟨some e, t⟩

/-- The per-rule delete loop of `RemovePoliciesCtx`: runs inside one
transaction, deleting each rule's exact matches from the working table and
summing affected-row counts. -/
def removeLoop (p : String) : Table → List (List String) → Table × Nat
  | t, [] => (t, 0)
  | t, r :: rest =>
    let matched := t.countP (matchesExact p r)
    let t2 := t.filter (fun row => !(matchesExact p r row))
    let res := removeLoop p t2 rest
    (res.1, matched + res.2)

/-- `RemovePoliciesCtx`: empty batch is a no-op success; otherwise the
transaction commits unless the transaction-wide total of affected rows is
zero, in which case it rolls back with not-found. -/
def removePolicies (t : Table) (p : String) (rules : List (List String)) : MutRes :=
  if rules.isEmpty then ⟨none, t⟩
  else
    let res := removeLoop p t rules
    if res.2 = 0 then ⟨some .notFound, t⟩ else ⟨none, res.1⟩

/-- SET clause of an update: all six value columns are set to the new
rule's encoded fields; ptype is not touched. -/
def setVals (row : Row) (rule : List String) : Row :=
  ⟨row.ptype, enc rule 0, enc rule 1, enc rule 2, enc rule 3, enc rule 4, enc rule 5⟩

/-- Effect of one `UpdateOne`-shaped statement when it executes without
error: rows matching the exact predicate for the old rule get their value
columns overwritten from the new rule. -/
def applyUpdate (p : String) (o n : List String) (t : Table) : Table :=
  t.map (fun row => if matchesExact p o row then setVals row n else row)

/-- Condition under which the UPDATE statement raises a duplicate-key
error against the unique index `(ptype, COALESCE(v0,''), ...)`: it
modifies at least one row and either moves it onto the key of a row it
does not modify, or modifies two rows at once (all modified rows share the
old key, so after the move they would share the new key). -/
def updViolation (p : String) (o n : List String) (t : Table) : Bool :=
  let matched := t.countP (matchesExact p o)
  let newK := keyOf (toRow p n)
  decide (1 ≤ matched) &&
    (t.any (fun row => !(matchesExact p o row) && (keyOf row == newK)) ||
      decide (2 ≤ matched))

/-- The per-pair update loop of `UpdatePoliciesCtx` inside its transaction:
a pair whose statement raises a duplicate-key error aborts with the
wrapped backend error, and a pair whose exact predicate matches zero rows
of the working table aborts with not-found. -/
def applyPairs (p : String) : Table → List (List String × List String) → Except Err Table
  | t, [] => .ok t
  | t, pr :: rest =>
    if updViolation p pr.1 pr.2 t then .error .backend
    else if t.countP (matchesExact p pr.1) = 0 then .error .notFound
    else applyPairs p (applyUpdate p pr.1 pr.2 t) rest

/-- Success predicate for the update loop, stated as its own recursion:
every pair, applied in sequence, executes without a duplicate-key
violation and finds at least one matching row. -/
def pairsAllFound (p : String) : Table → List (List String × List String) → Bool
  | _, [] => true
  | t, pr :: rest =>
    if updViolation p pr.1 pr.2 t then false
    else if t.countP (matchesExact p pr.1) = 0 then false
    else pairsAllFound p (applyUpdate p pr.1 pr.2 t) rest

/-- `UpdatePoliciesCtx`: mismatched lengths fail with invalid-argument;
empty input is a no-op success; otherwise the pair loop runs in one
transaction which rolls back wholly on any failure. -/
def updatePolicies (t : Table) (p : String)
    (old new : List (List String)) : MutRes :=
  if old.length ≠ new.length then ⟨some .invalidArgument, t⟩
  else if old.isEmpty then ⟨none, t⟩
  else
    match applyPairs p t (old.zip new) with
    | .ok t2 => ⟨none, t2⟩
    | .error e => ⟨some e, t⟩

/-- `SavePolicyCtx`: within one transaction, truncate the table and bulk
insert the model's collected policy lines; an insert failure rolls the
truncate back too. -/
def savePolicy (t : Table) (lines : List (String × List String)) : MutRes :=
  match insertMany [] (lines.map (fun pr => toRow pr.1 pr.2)) with
  | .ok t2 => ⟨none, t2⟩
  | .error e => ⟨some e, t⟩

/-- Field-indexed constraint list built by `UpdateFilteredPoliciesCtx`,
starting at column `c`: one equality constraint per value on consecutive
columns, stopping (break) once the column would exceed 5.  Empty-string
values are bound like any other. -/
def fiConsUpdate (c : Nat) : List String → List (Nat × String)
  | [] => []
  | v :: rest => if 5 < c then [] else (c, v) :: fiConsUpdate (c + 1) rest

/-- Field-indexed constraint list built by `RemoveFilteredPolicyCtx`: same
as `fiConsUpdate` except that empty-string values are skipped entirely and
impose no constraint. -/
def fiConsRemove (c : Nat) : List String → List (Nat × String)
  | [] => []
  | v :: rest =>
    if 5 < c then []
    else (if v = blank then [] else [(c, v)]) ++ fiConsRemove (c + 1) rest

/-- A row satisfies a field-indexed predicate: ptype equality plus, for
each constraint, SQL equality of the column to the value (null never
matches). -/
def rowMatchesCs (p : String) (cs : List (Nat × String)) (row : Row) : Bool :=
  row.ptype == p && cs.all (fun c => row.col c.1 == some c.2)

/-- `RemoveFilteredPolicyCtx`: rejects an out-of-range field index, then
deletes rows matching its field-indexed predicate, failing with not-found
when zero rows are affected. -/
def removeFilteredPolicy (t : Table) (p : String) (fi : Int)
    (vals : List String) : MutRes :=
  if fi < 0 || 5 < fi then ⟨some .invalidArgument, t⟩
  else
    let cs := fiConsRemove fi.toNat vals
    if t.countP (rowMatchesCs p cs) = 0 then ⟨some .notFound, t⟩
    else ⟨none, t.filter (fun r => !(rowMatchesCs p cs r))⟩

/-- `UpdateFilteredPoliciesCtx`: rejects an out-of-range field index; in
one transaction selects and decodes the rows matching its field-indexed
predicate, deletes them, inserts the new rules, and returns the decoded
old rows; any failure rolls the whole transaction back. -/
def updateFilteredPolicies (t : Table) (p : String)
    (newRules : List (List String)) (fi : Int) (vals : List String) : UpdFRes :=
  if fi < 0 || 5 < fi then ⟨some .invalidArgument, t, []⟩
  else
    let cs := fiConsUpdate fi.toNat vals
    let old := (t.filter (rowMatchesCs p cs)).map decodeNoPtype
    let rest := t.filter (fun r => !(rowMatchesCs p cs r))
    match insertMany rest (newRules.map (toRow p)) with
    | .ok t2 => ⟨none, t2, old⟩
    | .error e => ⟨some e, t, []⟩

/-- The multi-valued load filter: one candidate list per column; an empty
list imposes no restriction. -/
structure Filter where
  Ptype : List String
  V0 : List String
  V1 : List String
  V2 : List String
  V3 : List String
  V4 : List String
  V5 : List String
deriving DecidableEq, Repr

/-- Candidate list of a filter for value column `i`. -/
def colCands (f : Filter) : Nat → List String
  | 0 => f.V0
  | 1 => f.V1
  | 2 => f.V2
  | 3 => f.V3
  | 4 => f.V4
  | 5 => f.V5
  | _ => []

/-- SQL `IN` membership of a nullable column value in a candidate list:
null matches nothing. -/
def optMem (v : Option String) (l : List String) : Bool :=
  match v with
  | some s => l.contains s
  | none => false

/-- WHERE clause of `LoadFilteredPolicyCtx`: each non-empty candidate list
adds an IN constraint on its column; all constraints are ANDed. -/
def rowMatchesFilter (f : Filter) (row : Row) : Bool :=
  (f.Ptype.isEmpty || f.Ptype.contains row.ptype) &&
  (f.V0.isEmpty || optMem row.v0 f.V0) &&
  (f.V1.isEmpty || optMem row.v1 f.V1) &&
  (f.V2.isEmpty || optMem row.v2 f.V2) &&
  (f.V3.isEmpty || optMem row.v3 f.V3) &&
  (f.V4.isEmpty || optMem row.v4 f.V4) &&
  (f.V5.isEmpty || optMem row.v5 f.V5)

/-- `LoadPolicyCtx`: decode every stored row, in row order. -/
def loadPolicyLines (t : Table) : List (List String) :=
  t.map fromRow

/-- Constrained scan of `LoadFilteredPolicyCtx`: decode exactly the rows
matching the filter, in row order. -/
def loadFilteredLines (t : Table) (f : Filter) : List (List String) :=
  (t.filter (fun r => rowMatchesFilter f r)).map fromRow

/-- Adapter state relevant to the filtered-load flag. -/
structure AState where
  table : Table
  isFiltered : Bool
deriving DecidableEq, Repr

/-- `LoadPolicyCtx` as a state transition: it performs the unconstrained
scan and does not touch the filtered flag. -/
def loadPolicyS (s : AState) : AState × List (List String) :=
  (s, loadPolicyLines s.table)

/-- `LoadFilteredPolicyCtx` as a state transition: a nil filter clears the
flag and delegates to the unfiltered load; a present filter sets the flag
and runs the constrained scan. -/
def loadFilteredPolicyS (s : AState) : Option Filter → AState × List (List String)
  | none => ({ s with isFiltered := false }, loadPolicyLines s.table)
  | some f => ({ s with isFiltered := true }, loadFilteredLines s.table f)

/-- `IsFilteredCtx`: read the flag. -/
def isFilteredS (s : AState) : Bool :=
  s.isFiltered

/-! Sample data used by witnesses and counterexamples. -/

def pS : String := "p"

def sAlice : String := "alice"

def sBob : String := "bob"

def sData1 : String := "data1"

def sData2 : String := "data2"

def sRead : String := "read"

def sWrite : String := "write"

def rA : List String := [sAlice, sData1, sRead]

def rB : List String := [sBob, sData2, sWrite]

/-! Supporting lemmas. -/

theorem insertMany_cases (t : Table) (rows : List Row) :
    (dupCond t rows = true ∧ insertMany t rows = .error .alreadyExists) ∨
    (dupCond t rows = false ∧ insertMany t rows = .ok (t ++ rows)) := by
  unfold insertMany
  by_cases h : dupCond t rows = true
  · exact .inl ⟨h, by simp [h]⟩
  · exact .inr ⟨by simpa using h, by simp [h]⟩

/-- C1: `AddPolicies` runs a non-empty batch as one multi-row insert: a
uniqueness violation on any row fails the whole call with already-exists
and leaves the stored table exactly as before; a successful call appends
exactly the encoded batch; the empty batch is a no-op success. -/
theorem claim_C1 (t : Table) (p : String) (rules : List (List String)) :
    addPolicies t p [] = ⟨none, t⟩ ∧
    (dupCond t (rules.map (toRow p)) = true →
      addPolicies t p rules = ⟨some .alreadyExists, t⟩) ∧
    ((addPolicies t p rules).err = none →
      (addPolicies t p rules).table = t ++ rules.map (toRow p)) := by
  refine ⟨rfl, ?_, ?_⟩
  · intro h
    by_cases he : rules.isEmpty
    · rw [List.isEmpty_iff] at he
      subst he
      simp [dupCond, hasDup] at h
    · unfold addPolicies
      rcases insertMany_cases t (rules.map (toRow p)) with ⟨_, hins⟩ | ⟨hd, _⟩
      · simp [he, hins]
      · rw [hd] at h
        exact absurd h (by simp)
  · intro h
    by_cases he : rules.isEmpty
    · rw [List.isEmpty_iff] at he
      subst he
      simp [addPolicies]
    · unfold addPolicies at h ⊢
      rcases insertMany_cases t (rules.map (toRow p)) with ⟨_, hins⟩ | ⟨_, hins⟩
      · simp [he, hins] at h
      · simp [he, hins]

/-- C1 witness: a batch repeating an already-stored rule fails with
already-exists and leaves the table unchanged; the empty batch succeeds. -/
theorem claim_C1_witness :
    addPolicies [toRow pS rA] pS [] = ⟨none, [toRow pS rA]⟩ ∧
    addPolicies [toRow pS rA] pS [rB, rA] = ⟨some .alreadyExists, [toRow pS rA]⟩ := by
  refine ⟨(claim_C1 [toRow pS rA] pS [rB, rA]).1, ?_⟩
  exact (claim_C1 [toRow pS rA] pS [rB, rA]).2.1 (by decide)

/-- C5: `SavePolicy` truncates and bulk-inserts in one transaction: on
success the stored table is exactly the encoded model lines; on failure
(which happens exactly when the encoded lines collide under the uniqueness
key) the truncate is rolled back too and the original table survives. -/
theorem claim_C5 (t : Table) (lines : List (String × List String)) :
    ((savePolicy t lines).err = none →
      (savePolicy t lines).table = lines.map (fun pr => toRow pr.1 pr.2)) ∧
    ((savePolicy t lines).err.isSome → (savePolicy t lines).table = t) ∧
    ((savePolicy t lines).err = none ↔
      hasDup ((lines.map (fun pr => toRow pr.1 pr.2)).map keyOf) = false) := by
  unfold savePolicy
  rcases insertMany_cases [] (lines.map (fun pr => toRow pr.1 pr.2)) with
    ⟨hd, hins⟩ | ⟨hd, hins⟩ <;>
    rw [hins] <;>
    simp only [dupCond, List.map_nil] at hd <;>
    simp_all

/-- C5 witness: saving a model whose lines collide fails and keeps the
original row; saving distinct lines replaces the table exactly. -/
theorem claim_C5_witness :
    ((savePolicy [toRow pS rA] [(pS, rB), (pS, rB)]).err.isSome →
      (savePolicy [toRow pS rA] [(pS, rB), (pS, rB)]).table = [toRow pS rA]) ∧
    (savePolicy [toRow pS rA] [(pS, rB), (pS, rB)]).err.isSome := by
  exact ⟨(claim_C5 [toRow pS rA] [(pS, rB), (pS, rB)]).2.1, by decide⟩

def s0C7 : AState := ⟨[], false⟩

def fC7 : Filter := ⟨[], [], [], [], [], [], []⟩

/-- C7 counterexample: after a filtered load, a direct `LoadPolicy` — an
unfiltered load — leaves the flag `true`, because `LoadPolicyCtx` never
writes the flag; the claim requires `IsFiltered` to be false after every
unfiltered load, including one performed through `LoadPolicy`. -/
theorem claim_C7_cex :
    isFilteredS (loadPolicyS (loadFilteredPolicyS s0C7 (some fC7)).1).1 = true := rfl

/-- C7 amended: the flag is written only by `LoadFilteredPolicy`: it
becomes true exactly when that call received a non-nil filter and false
when it received nil, while a direct `LoadPolicy` leaves the flag
unchanged (so it can remain true after an unfiltered `LoadPolicy`). -/
theorem claim_C7_amended (s : AState) (fopt : Option Filter) :
    isFilteredS (loadFilteredPolicyS s fopt).1 = fopt.isSome ∧
    isFilteredS (loadPolicyS s).1 = isFilteredS s := by
  cases fopt <;> simp [loadFilteredPolicyS, loadPolicyS, isFilteredS]

theorem valsList_toRow (p : String) (rule : List String) :
    (toRow p rule).valsList = (List.range 6).map (enc rule) := rfl

theorem enc_cons_succ (a : String) (l : List String) (i : Nat) :
    enc (a :: l) (i + 1) = enc l i := rfl

theorem filterMap_enc (l : List String) :
    ∀ n : Nat,
      ((List.range n).map (enc l)).filterMap id =
        (l.take n).filter (fun s => !(s == blank)) := by
  induction l with
  | nil =>
    intro n
    have h : ∀ i, enc ([] : List String) i = none := by
      intro i
      simp [enc, blank]
    simp [List.filterMap_map, h]
  | cons a l ih =>
    intro n
    cases n with
    | zero => simp
    | succ n =>
      rw [List.range_succ_eq_map, List.map_cons, List.map_map]
      have hcomp : enc (a :: l) ∘ Nat.succ = enc l := by
        funext i
        exact enc_cons_succ a l i
      rw [hcomp, List.filterMap_cons]
      by_cases ha : a = blank
      · have : enc (a :: l) 0 = none := by simp [enc, ha]
        rw [this, List.take_succ_cons, List.filter_cons]
        simp [ha, ih n]
      · have : enc (a :: l) 0 = some a := by simp [enc, ha]
        rw [this, List.take_succ_cons, List.filter_cons]
        simp only [id]
        have hne : (a == blank) = false := by
          simpa using ha
        simp [hne, ih n]

theorem addPolicy_ok_table (t : Table) (p : String) (rule : List String)
    (t2 : Table) (h : addPolicy t p rule = ⟨none, t2⟩) :
    t2 = t ++ [toRow p rule] := by
  unfold addPolicy at h
  rcases insertMany_cases t [toRow p rule] with ⟨_, hins⟩ | ⟨_, hins⟩ <;>
    rw [hins] at h
  · exact absurd (congrArg MutRes.err h) (by simp)
  · exact (congrArg MutRes.table h).symm

/-- C8: on write a field that is empty or beyond the rule's length becomes
NULL; on read a row decodes to its ptype followed by exactly the non-null
values in order; hence `AddPolicy` then `LoadPolicy` reproduces the rule
with empty-string fields collapsed to absence. -/
theorem claim_C8 (t : Table) (p : String) (rule : List String) (t2 : Table)
    (h : addPolicy t p rule = ⟨none, t2⟩) :
    (∀ i, i < 6 → (toRow p rule).col i =
      (if rule.getD i blank = blank then none else some (rule.getD i blank))) ∧
    fromRow (toRow p rule) = p :: (rule.take 6).filter (fun s => !(s == blank)) ∧
    loadPolicyLines t2 =
      loadPolicyLines t ++ [p :: (rule.take 6).filter (fun s => !(s == blank))] := by
  have hfr : fromRow (toRow p rule) =
      p :: (rule.take 6).filter (fun s => !(s == blank)) := by
    unfold fromRow
    rw [valsList_toRow, filterMap_enc rule 6]
    rfl
  refine ⟨?_, hfr, ?_⟩
  · intro i hi
    interval_cases i <;> rfl
  · rw [addPolicy_ok_table t p rule t2 h]
    unfold loadPolicyLines
    rw [List.map_append, List.map_singleton, hfr]

/-- C8 witness: adding `["alice", "", "read"]` to an empty table succeeds,
and the subsequent load reproduces `["p", "alice", "read"]` — the empty
field comes back as absence, not as the empty string. -/
theorem claim_C8_witness :
    (∀ i, i < 6 → (toRow pS [sAlice, blank, sRead]).col i =
      (if [sAlice, blank, sRead].getD i blank = blank then none
       else some ([sAlice, blank, sRead].getD i blank))) ∧
    fromRow (toRow pS [sAlice, blank, sRead]) =
      pS :: ([sAlice, blank, sRead].take 6).filter (fun s => !(s == blank)) ∧
    loadPolicyLines [toRow pS [sAlice, blank, sRead]] =
      loadPolicyLines [] ++
        [pS :: ([sAlice, blank, sRead].take 6).filter (fun s => !(s == blank))] :=
  claim_C8 [] pS [sAlice, blank, sRead] [toRow pS [sAlice, blank, sRead]] (by decide)

theorem removeLoop_table (p : String) (rules : List (List String)) :
    ∀ t : Table, (removeLoop p t rules).1 =
      t.filter (fun row => !(rules.any (fun r => matchesExact p r row))) := by
  induction rules with
  | nil =>
    intro t
    simp [removeLoop]
  | cons r rest ih =>
    intro t
    show (removeLoop p (t.filter (fun row => !(matchesExact p r row))) rest).1 = _
    rw [ih, List.filter_filter]
    apply List.filter_congr
    intro row _
    simp only [List.any_cons, Bool.not_or]
    rw [Bool.and_comm]

theorem removeLoop_total_zero (p : String) (rules : List (List String)) :
    ∀ t : Table, (removeLoop p t rules).2 = 0 ↔
      ∀ r ∈ rules, ∀ row ∈ t, matchesExact p r row = false := by
  induction rules with
  | nil =>
    intro t
    simp [removeLoop]
  | cons r rest ih =>
    intro t
    show t.countP (matchesExact p r) +
        (removeLoop p (t.filter (fun row => !(matchesExact p r row))) rest).2 = 0 ↔ _
    constructor
    · intro h
      have hc : t.countP (matchesExact p r) = 0 := by omega
      have hrest :
          (removeLoop p (t.filter (fun row => !(matchesExact p r row))) rest).2 = 0 := by
        omega
      have hnone : ∀ row ∈ t, matchesExact p r row = false := by
        intro row hrow
        simpa using List.countP_eq_zero.mp hc row hrow
      have hfix : t.filter (fun row => !(matchesExact p r row)) = t := by
        rw [List.filter_eq_self]
        intro row hrow
        simp [hnone row hrow]
      rw [hfix] at hrest
      intro r2 hr2 row hrow
      rcases List.mem_cons.mp hr2 with h2 | h2
      · subst h2
        exact hnone row hrow
      · exact (ih t).mp hrest r2 h2 row hrow
    · intro h
      have hc : t.countP (matchesExact p r) = 0 := by
        rw [List.countP_eq_zero]
        intro row hrow
        simp [h r (List.mem_cons_self r rest) row hrow]
      have hfix : t.filter (fun row => !(matchesExact p r row)) = t := by
        rw [List.filter_eq_self]
        intro row hrow
        simp [h r (List.mem_cons_self r rest) row hrow]
      rw [hc, hfix]
      have : (removeLoop p t rest).2 = 0 :=
        (ih t).mpr (fun r2 hr2 row hrow => h r2 (List.mem_cons_of_mem r hr2) row hrow)
      omega

/-- C3: `RemovePolicies` sums per-rule affected counts inside one shared
transaction, failing with not-found and leaving the table untouched only
when the transaction-wide total is zero — equivalently when no rule in the
batch matches any stored row; otherwise it commits, even on a partial
match, removing exactly the rows matched by some rule of the batch. -/
theorem claim_C3 (t : Table) (p : String) (rules : List (List String)) :
    (rules = [] → removePolicies t p rules = ⟨none, t⟩) ∧
    (rules ≠ [] →
      (((removePolicies t p rules).err = none ↔
        ∃ r ∈ rules, ∃ row ∈ t, matchesExact p r row = true) ∧
      ((removePolicies t p rules).err = none →
        (removePolicies t p rules).table =
          t.filter (fun row => !(rules.any (fun r => matchesExact p r row)))) ∧
      ((removePolicies t p rules).err.isSome →
        removePolicies t p rules = ⟨some .notFound, t⟩))) := by
  constructor
  · intro h
    subst h
    rfl
  · intro hne
    have hne2 : rules.isEmpty = false := by
      simpa [List.isEmpty_iff] using hne
    have hex : ¬ (removeLoop p t rules).2 = 0 ↔
        ∃ r ∈ rules, ∃ row ∈ t, matchesExact p r row = true := by
      rw [removeLoop_total_zero p rules t]
      push_neg
      constructor
      · rintro ⟨r, hr, row, hrow, hm⟩
        exact ⟨r, hr, row, hrow, by simpa using hm⟩
      · rintro ⟨r, hr, row, hrow, hm⟩
        exact ⟨r, hr, row, hrow, by simp [hm]⟩
    unfold removePolicies
    rw [hne2]
    by_cases hz : (removeLoop p t rules).2 = 0
    · simp only [Bool.false_eq_true, if_false, hz, if_pos rfl]
      refine ⟨?_, ?_, ?_⟩
      · constructor
        · intro h
          exact absurd h (by simp)
        · intro h
          exact absurd hz (hex.mpr h)
      · intro h
        exact absurd h (by simp)
      · intro _
        rfl
    · simp only [Bool.false_eq_true, if_false, if_neg hz]
      refine ⟨?_, ?_, ?_⟩
      · simp only [true_iff, show ((none : Option Err) = none) from rfl]
        exact hex.mp hz
      · intro _
        exact removeLoop_table p rules t
      · intro h
        exact absurd h (by simp)

/-- C3 witness: removing the batch `[rA, rB]` when only `rA` is stored
succeeds (partial match commits) and deletes exactly the stored `rA`. -/
theorem claim_C3_witness :
    (((removePolicies [toRow pS rA] pS [rA, rB]).err = none ↔
      ∃ r ∈ [rA, rB], ∃ row ∈ [toRow pS rA], matchesExact pS r row = true) ∧
    ((removePolicies [toRow pS rA] pS [rA, rB]).err = none →
      (removePolicies [toRow pS rA] pS [rA, rB]).table =
        [toRow pS rA].filter
          (fun row => !([rA, rB].any (fun r => matchesExact pS r row)))) ∧
    ((removePolicies [toRow pS rA] pS [rA, rB]).err.isSome →
      removePolicies [toRow pS rA] pS [rA, rB] = ⟨some .notFound, [toRow pS rA]⟩)) :=
  (claim_C3 [toRow pS rA] pS [rA, rB]).2 (by decide)

theorem applyPairs_ok_iff (p : String) (prs : List (List String × List String)) :
    ∀ t : Table, (∃ t2, applyPairs p t prs = .ok t2) ↔ pairsAllFound p t prs = true := by
  induction prs with
  | nil =>
    intro t
    simp [applyPairs, pairsAllFound]
  | cons pr rest ih =>
    intro t
    by_cases hv : updViolation p pr.1 pr.2 t = true
    · simp [applyPairs, pairsAllFound, hv]
    · have hv2 : updViolation p pr.1 pr.2 t = false := by
        simpa using hv
      by_cases hc : t.countP (matchesExact p pr.1) = 0
      · simp [applyPairs, pairsAllFound, hv2, hc]
      · simp only [applyPairs, pairsAllFound, hv2, Bool.false_eq_true, if_false,
          if_neg hc]
        exact ih _

/-- C2: `UpdatePolicies` rejects mismatched batch lengths with an
invalid-argument error and no change; an empty batch is a no-op success;
any failure — a pair matching zero rows, or a pair whose update raises a
duplicate-key violation against the unique index — rolls the whole
transaction back so the table is untouched; and for equal-length batches
the call succeeds exactly when every (old, new) pair, applied in sequence
inside the transaction, executes without a duplicate-key violation and
matches at least one row — in which case the final table is the pair
loop's result. -/
theorem claim_C2 (t : Table) (p : String) (old new : List (List String)) :
    (old.length ≠ new.length →
      updatePolicies t p old new = ⟨some .invalidArgument, t⟩) ∧
    (old = [] → new = [] → updatePolicies t p old new = ⟨none, t⟩) ∧
    ((updatePolicies t p old new).err.isSome →
      (updatePolicies t p old new).table = t) ∧
    (old.length = new.length →
      ((updatePolicies t p old new).err = none ↔
        pairsAllFound p t (old.zip new) = true)) ∧
    ((updatePolicies t p old new).err = none →
      applyPairs p t (old.zip new) = .ok (updatePolicies t p old new).table) := by
  by_cases hlen : old.length = new.length
  · have hres : updatePolicies t p old new =
        (if old.isEmpty then ⟨none, t⟩
         else
           match applyPairs p t (old.zip new) with
           | .ok t2 => ⟨none, t2⟩
           | .error e => ⟨some e, t⟩) := by
      unfold updatePolicies
      rw [if_neg (by simp [hlen])]
    by_cases hemp : old.isEmpty
    · rw [List.isEmpty_iff] at hemp
      subst hemp
      have hnew : new = [] := by
        simpa using hlen.symm
      subst hnew
      refine ⟨fun h => absurd rfl h, fun _ _ => rfl, ?_, ?_, ?_⟩ <;>
        simp [updatePolicies, applyPairs, pairsAllFound]
    · rw [if_neg hemp] at hres
      rcases happ : applyPairs p t (old.zip new) with e | t2
      · rw [happ] at hres
        refine ⟨fun h => absurd hlen h, ?_, ?_, ?_, ?_⟩
        · intro h
          rw [List.isEmpty_iff] at hemp
          exact absurd h hemp
        · intro _
          rw [hres]
        · intro _
          rw [hres]
          constructor
          · intro h
            exact absurd h (by simp)
          · intro h
            rcases (applyPairs_ok_iff p (old.zip new) t).mpr h with ⟨t2, h2⟩
            rw [happ] at h2
            exact absurd h2 (by simp)
        · intro h
          rw [hres] at h
          exact absurd h (by simp)
      · rw [happ] at hres
        refine ⟨fun h => absurd hlen h, ?_, ?_, ?_, ?_⟩
        · intro h
          rw [List.isEmpty_iff] at hemp
          exact absurd h hemp
        · intro h
          rw [hres] at h
          exact absurd h (by simp)
        · intro _
          rw [hres]
          simp only [true_iff, show ((none : Option Err) = none) from rfl]
          exact (applyPairs_ok_iff p (old.zip new) t).mp ⟨t2, happ⟩
        · intro _
          have h2 : (updatePolicies t p old new).table = t2 := by
            rw [hres]
          rw [h2]
  · have hres : updatePolicies t p old new = ⟨some .invalidArgument, t⟩ := by
      unfold updatePolicies
      rw [if_pos (by simpa using hlen)]
    refine ⟨fun _ => hres, ?_, ?_, fun h => absurd h hlen, ?_⟩
    · intro h1 h2
      subst h1
      subst h2
      exact absurd rfl hlen
    · intro _
      rw [hres]
    · intro h
      rw [hres] at h
      exact absurd h (by simp)

/-- C2 witness: an update batch whose only pair matches nothing fails and
leaves the table unchanged, and so does a batch whose only pair would
move the stored alice rule onto the stored bob rule's uniqueness key; the
characterization evaluates accordingly. -/
theorem claim_C2_witness :
    ((updatePolicies [toRow pS rA] pS [rB] [rA]).err.isSome →
      (updatePolicies [toRow pS rA] pS [rB] [rA]).table = [toRow pS rA]) ∧
    ((updatePolicies [toRow pS rA] pS [rB] [rA]).err = none ↔
      pairsAllFound pS [toRow pS rA] ([rB].zip [rA]) = true) ∧
    (updatePolicies [toRow pS rA] pS [rB] [rA]).err.isSome ∧
    ((updatePolicies [toRow pS rA, toRow pS rB] pS [rA] [rB]).err.isSome →
      (updatePolicies [toRow pS rA, toRow pS rB] pS [rA] [rB]).table =
        [toRow pS rA, toRow pS rB]) ∧
    (updatePolicies [toRow pS rA, toRow pS rB] pS [rA] [rB]).err = some .backend :=
  ⟨(claim_C2 [toRow pS rA] pS [rB] [rA]).2.2.1,
   (claim_C2 [toRow pS rA] pS [rB] [rA]).2.2.2.1 (by decide),
   by decide,
   (claim_C2 [toRow pS rA, toRow pS rB] pS [rA] [rB]).2.2.1,
   by decide⟩

theorem colClause_iff (l : List String) (v : Option String) :
    (l.isEmpty || optMem v l) = true ↔ (l ≠ [] → ∃ s, v = some s ∧ s ∈ l) := by
  cases l with
  | nil => simp [optMem]
  | cons a l2 =>
    cases v with
    | none => simp [optMem]
    | some s => simp [optMem, List.elem_iff]

theorem ptypeClause_iff (l : List String) (s : String) :
    (l.isEmpty || l.contains s) = true ↔ (l ≠ [] → s ∈ l) := by
  cases l with
  | nil => simp
  | cons a l2 => simp [List.elem_iff]

theorem rowMatchesFilter_iff (f : Filter) (row : Row) :
    rowMatchesFilter f row = true ↔
      ((f.Ptype ≠ [] → row.ptype ∈ f.Ptype) ∧
       ∀ i, i < 6 → colCands f i ≠ [] →
         ∃ s, row.col i = some s ∧ s ∈ colCands f i) := by
  constructor
  · intro h
    simp only [rowMatchesFilter, Bool.and_eq_true] at h
    obtain ⟨⟨⟨⟨⟨⟨h0, h1⟩, h2⟩, h3⟩, h4⟩, h5⟩, h6⟩ := h
    refine ⟨(ptypeClause_iff f.Ptype row.ptype).mp h0, ?_⟩
    intro i hi
    interval_cases i
    · exact (colClause_iff f.V0 row.v0).mp h1
    · exact (colClause_iff f.V1 row.v1).mp h2
    · exact (colClause_iff f.V2 row.v2).mp h3
    · exact (colClause_iff f.V3 row.v3).mp h4
    · exact (colClause_iff f.V4 row.v4).mp h5
    · exact (colClause_iff f.V5 row.v5).mp h6
  · rintro ⟨hp, hcols⟩
    simp only [rowMatchesFilter, Bool.and_eq_true]
    exact ⟨⟨⟨⟨⟨⟨(ptypeClause_iff f.Ptype row.ptype).mpr hp,
      (colClause_iff f.V0 row.v0).mpr (hcols 0 (by omega))⟩,
      (colClause_iff f.V1 row.v1).mpr (hcols 1 (by omega))⟩,
      (colClause_iff f.V2 row.v2).mpr (hcols 2 (by omega))⟩,
      (colClause_iff f.V3 row.v3).mpr (hcols 3 (by omega))⟩,
      (colClause_iff f.V4 row.v4).mpr (hcols 4 (by omega))⟩,
      (colClause_iff f.V5 row.v5).mpr (hcols 5 (by omega))⟩

/-- C6: `LoadFilteredPolicy` loads exactly the stored rows for which every
column with a non-empty candidate list carries one of the candidates (OR
inside a column, AND across columns); columns with an empty candidate list
are unconstrained, and a NULL column never satisfies a non-empty list. -/
theorem claim_C6 (t : Table) (f : Filter) (line : List String) :
    line ∈ loadFilteredLines t f ↔
      ∃ row, row ∈ t ∧ line = fromRow row ∧
        (f.Ptype ≠ [] → row.ptype ∈ f.Ptype) ∧
        (∀ i, i < 6 → colCands f i ≠ [] →
          ∃ s, row.col i = some s ∧ s ∈ colCands f i) := by
  unfold loadFilteredLines
  rw [List.mem_map]
  constructor
  · rintro ⟨row, hrow, hline⟩
    rw [List.mem_filter] at hrow
    exact ⟨row, hrow.1, hline.symm, (rowMatchesFilter_iff f row).mp hrow.2⟩
  · rintro ⟨row, hrowt, hline, hp, hcols⟩
    exact ⟨row,
      List.mem_filter.mpr ⟨hrowt, (rowMatchesFilter_iff f row).mpr ⟨hp, hcols⟩⟩,
      hline.symm⟩

def fC6 : Filter := ⟨[], [sAlice, sBob], [], [], [], [], []⟩

/-- C6 witness: under the filter `{V0: [alice, bob]}` the stored alice row
is loaded, regardless of its other columns. -/
theorem claim_C6_witness :
    fromRow (toRow pS rA) ∈ loadFilteredLines [toRow pS rA, toRow pS rB] fC6 := by
  refine (claim_C6 [toRow pS rA, toRow pS rB] fC6 (fromRow (toRow pS rA))).mpr
    ⟨toRow pS rA, by decide, rfl, by decide, ?_⟩
  intro i hi hc
  interval_cases i
  · exact ⟨sAlice, rfl, by decide⟩
  · exact absurd rfl hc
  · exact absurd rfl hc
  · exact absurd rfl hc
  · exact absurd rfl hc
  · exact absurd rfl hc

/-- The constraint list the spec describes for a field-indexed predicate
starting at column `c`: one equality constraint per supplied value on
consecutive columns, truncated where the run would pass column 5. -/
def expectedCs (c : Nat) (vals : List String) : List (Nat × String) :=
  (List.range (min vals.length (6 - c))).map (fun j => (c + j, vals.getD j blank))

theorem fiConsUpdate_eq (vals : List String) :
    ∀ c : Nat, fiConsUpdate c vals = expectedCs c vals := by
  induction vals with
  | nil =>
    intro c
    simp [fiConsUpdate, expectedCs]
  | cons v rest ih =>
    intro c
    by_cases hc : 5 < c
    · have h0 : 6 - c = 0 := by omega
      simp [fiConsUpdate, hc, expectedCs, h0]
    · have h6 : min (rest.length + 1) (6 - c) = min rest.length (6 - (c + 1)) + 1 := by
        omega
      simp only [fiConsUpdate, if_neg hc, expectedCs, List.length_cons, h6,
        List.range_succ_eq_map, List.map_cons, List.map_map]
      refine congrArg₂ List.cons (by simp) ?_
      rw [ih (c + 1)]
      unfold expectedCs
      apply List.map_congr_left
      intro j _
      simp only [Function.comp]
      refine congrArg₂ Prod.mk (by omega) rfl

theorem fiConsRemove_eq (vals : List String) :
    ∀ c : Nat,
      fiConsRemove c vals = (fiConsUpdate c vals).filter (fun pr => !(pr.2 == blank)) := by
  induction vals with
  | nil =>
    intro c
    simp [fiConsRemove, fiConsUpdate]
  | cons v rest ih =>
    intro c
    by_cases hc : 5 < c
    · simp [fiConsRemove, fiConsUpdate, hc]
    · simp only [fiConsRemove, fiConsUpdate, if_neg hc, List.filter_cons]
      by_cases hv : v = blank
      · simp [hv, ih (c + 1)]
      · have hnv : (v == blank) = false := by simpa using hv
        simp [hv, hnv, ih (c + 1)]

def rowC9 : Row := ⟨pS, none, some sData1, none, none, none, none⟩

/-- C9 counterexample: with `fieldIndex 0` and values `["", "data1"]`,
`RemoveFilteredPolicy` deletes a row whose `v0` is NULL — yet that row
fails the claim's predicate of one equality constraint per supplied value
(which would pin `v0` to the empty string), so the claim's description of
the remove predicate is false at this input. -/
theorem claim_C9_cex :
    removeFilteredPolicy [rowC9] pS 0 [blank, sData1] = ⟨none, []⟩ ∧
    rowMatchesCs pS (fiConsUpdate 0 [blank, sData1]) rowC9 = false := by
  decide

/-- C9 amended: both operations reject a fieldIndex outside 0–5 with an
invalid-argument error and never clip it, and values whose target column
would exceed column 5 are silently dropped; within range,
`UpdateFilteredPolicies` builds one equality constraint per supplied value
on consecutive columns starting at fieldIndex, while `RemoveFilteredPolicy`
builds one per supplied non-empty value, skipping empty-string values. -/
theorem claim_C9_amended (t : Table) (p : String) (newRules : List (List String))
    (fi : Int) (vals : List String) (c : Nat) :
    ((fi < 0 ∨ 5 < fi) →
      removeFilteredPolicy t p fi vals = ⟨some .invalidArgument, t⟩ ∧
      updateFilteredPolicies t p newRules fi vals = ⟨some .invalidArgument, t, []⟩) ∧
    fiConsUpdate c vals = expectedCs c vals ∧
    fiConsRemove c vals = (expectedCs c vals).filter (fun pr => !(pr.2 == blank)) := by
  refine ⟨?_, fiConsUpdate_eq vals c, ?_⟩
  · intro h
    have hb : (decide (fi < 0) || decide (5 < fi)) = true := by
      rcases h with h | h <;> simp [h]
    constructor
    · unfold removeFilteredPolicy
      rw [if_pos (by simpa using hb)]
    · unfold updateFilteredPolicies
      rw [if_pos (by simpa using hb)]
  · rw [fiConsRemove_eq vals c, fiConsUpdate_eq vals c]

/-- C9 witness: a fieldIndex of 7 is rejected by both operations, and on
values `["", "data1"]` starting at column 0 the update-side predicate
binds both columns while the remove-side predicate skips the empty one. -/
theorem claim_C9_amended_witness :
    (removeFilteredPolicy [rowC9] pS 7 [sData1] = ⟨some .invalidArgument, [rowC9]⟩ ∧
      updateFilteredPolicies [rowC9] pS [rB] 7 [sData1] =
        ⟨some .invalidArgument, [rowC9], []⟩) ∧
    fiConsUpdate 0 [blank, sData1] = expectedCs 0 [blank, sData1] ∧
    fiConsRemove 0 [blank, sData1] =
      (expectedCs 0 [blank, sData1]).filter (fun pr => !(pr.2 == blank)) := by
  have h := claim_C9_amended [rowC9] pS [rB] 7 [blank, sData1] 0
  exact ⟨(claim_C9_amended [rowC9] pS [rB] 7 [sData1] 0).1 (by omega),
    h.2.1, h.2.2⟩

theorem allCongr {α : Type} (f g : α → Bool) :
    ∀ l : List α, (∀ x ∈ l, f x = g x) → l.all f = l.all g := by
  intro l h
  induction l with
  | nil => rfl
  | cons a l2 ih =>
    simp only [List.all_cons, h a (by simp)]
    rw [ih (fun x hx => h x (by simp [hx]))]

/-- C10: on the same (fieldIndex, values) input containing an empty-string
value, the two filtered operations select different row sets: the
update-side predicate binds the empty string as an equality constraint,
which a row whose column is NULL never satisfies, while the remove-side
predicate imposes no constraint on that column at all — a row's value
there, NULL included, does not affect whether it matches. -/
theorem claim_C10 (p : String) (fi i : Nat) (vals : List String) (row row2 : Row)
    (hcol : fi + i ≤ 5) (hi : i < vals.length) (hemp : vals.getD i blank = blank) :
    (row.col (fi + i) = none →
      rowMatchesCs p (fiConsUpdate fi vals) row = false) ∧
    (row.ptype = row2.ptype →
      (∀ c, c ≠ fi + i → row.col c = row2.col c) →
      rowMatchesCs p (fiConsRemove fi vals) row =
        rowMatchesCs p (fiConsRemove fi vals) row2) := by
  constructor
  · intro hnone
    have hmem : (fi + i, blank) ∈ fiConsUpdate fi vals := by
      rw [fiConsUpdate_eq]
      unfold expectedCs
      refine List.mem_map.mpr ⟨i, ?_, ?_⟩
      · rw [List.mem_range]
        omega
      · rw [hemp]
    have hall : (fiConsUpdate fi vals).all
        (fun pr => row.col pr.1 == some pr.2) = false := by
      rw [List.all_eq_false]
      refine ⟨(fi + i, blank), hmem, ?_⟩
      rw [hnone]
      simp
    unfold rowMatchesCs
    rw [hall, Bool.and_false]
  · intro hp hcols
    have hne : ∀ pr ∈ fiConsRemove fi vals, pr.1 ≠ fi + i := by
      intro pr hpr
      rw [fiConsRemove_eq, fiConsUpdate_eq] at hpr
      rcases List.mem_filter.mp hpr with ⟨hmem, hval⟩
      rcases List.mem_map.mp hmem with ⟨j, hj, hjeq⟩
      intro hcontra
      have hji : j = i := by
        have : fi + j = fi + i := by
          rw [← hcontra, ← hjeq]
        omega
      subst hji
      rw [← hjeq] at hval
      simp only [hemp] at hval
      simp at hval
    unfold rowMatchesCs
    rw [hp]
    refine congrArg₂ (fun a b => a && b) rfl ?_
    apply allCongr
    intro pr hpr
    rw [hcols pr.1 (hne pr hpr)]

def rowNull : Row := ⟨pS, none, none, none, none, none, none⟩

def rowD1 : Row := ⟨pS, some sData1, none, none, none, none, none⟩

/-- C10 witness: with values `[""]` at fieldIndex 0, a NULL-`v0` row fails
the update-side predicate, and the remove-side predicate is indifferent to
`v0`: the NULL row and a populated row match identically. -/
theorem claim_C10_witness :
    (rowNull.col (0 + 0) = none →
      rowMatchesCs pS (fiConsUpdate 0 [blank]) rowNull = false) ∧
    (rowNull.ptype = rowD1.ptype →
      (∀ c, c ≠ 0 + 0 → rowNull.col c = rowD1.col c) →
      rowMatchesCs pS (fiConsRemove 0 [blank]) rowNull =
        rowMatchesCs pS (fiConsRemove 0 [blank]) rowD1) :=
  claim_C10 pS 0 0 [blank] rowNull rowD1 (by decide) (by decide) (by decide)

theorem filter_not_eq_self (q : Row → Bool) (t : Table)
    (h : t.filter q = []) : t.filter (fun r => !(q r)) = t := by
  rw [List.filter_eq_self]
  intro row hrow
  have := List.filter_eq_nil_iff.mp h row hrow
  simp_all

/-- C4: with a valid field index, `UpdateFilteredPolicies` returns exactly
the decoded rows its predicate matched — the rows it deleted at the start
of its transaction — and on success the stored table becomes the
unmatched original rows followed by the encoded new rules; any failure
rolls the whole transaction back; a filter matching zero rows is not an
error: the call returns an empty replaced set and still inserts the new
rules. -/
theorem claim_C4 (t : Table) (p : String) (newRules : List (List String))
    (fi : Int) (vals : List String) (hfi : 0 ≤ fi ∧ fi ≤ 5) :
    ((updateFilteredPolicies t p newRules fi vals).err = none →
      (updateFilteredPolicies t p newRules fi vals).replaced =
        (t.filter (rowMatchesCs p (fiConsUpdate fi.toNat vals))).map decodeNoPtype ∧
      (updateFilteredPolicies t p newRules fi vals).table =
        t.filter (fun r => !(rowMatchesCs p (fiConsUpdate fi.toNat vals) r)) ++
          newRules.map (toRow p)) ∧
    ((updateFilteredPolicies t p newRules fi vals).err.isSome →
      (updateFilteredPolicies t p newRules fi vals).table = t ∧
      (updateFilteredPolicies t p newRules fi vals).replaced = []) ∧
    (∀ t2, t.filter (rowMatchesCs p (fiConsUpdate fi.toNat vals)) = [] →
      insertMany t (newRules.map (toRow p)) = .ok t2 →
      updateFilteredPolicies t p newRules fi vals = ⟨none, t2, []⟩) := by
  have hcond : ¬ ((decide (fi < 0) || decide (5 < fi)) = true) := by
    rcases hfi with ⟨h1, h2⟩
    simp only [Bool.or_eq_true, decide_eq_true_eq]
    omega
  have hres : updateFilteredPolicies t p newRules fi vals =
      (match insertMany
          (t.filter (fun r => !(rowMatchesCs p (fiConsUpdate fi.toNat vals) r)))
          (newRules.map (toRow p)) with
       | .ok t2 =>
         ⟨none, t2,
           (t.filter (rowMatchesCs p (fiConsUpdate fi.toNat vals))).map decodeNoPtype⟩
       | .error e => ⟨some e, t, []⟩) := by
    unfold updateFilteredPolicies
    rw [if_neg hcond]
  rcases hins : insertMany
      (t.filter (fun r => !(rowMatchesCs p (fiConsUpdate fi.toNat vals) r)))
      (newRules.map (toRow p)) with e | t2
  · rw [hins] at hres
    refine ⟨?_, ?_, ?_⟩
    · intro h
      rw [hres] at h
      exact absurd h (by simp)
    · intro _
      rw [hres]
      exact ⟨rfl, rfl⟩
    · intro t3 hzero hins2
      have hfix := filter_not_eq_self (rowMatchesCs p (fiConsUpdate fi.toNat vals)) t hzero
      rw [hfix] at hins
      rw [hins] at hins2
      exact absurd hins2 (by simp)
  · rw [hins] at hres
    refine ⟨?_, ?_, ?_⟩
    · intro _
      rw [hres]
      refine ⟨rfl, ?_⟩
      rcases insertMany_cases
          (t.filter (fun r => !(rowMatchesCs p (fiConsUpdate fi.toNat vals) r)))
          (newRules.map (toRow p)) with ⟨_, h2⟩ | ⟨_, h2⟩
      · rw [h2] at hins
        exact absurd hins (by simp)
      · rw [h2] at hins
        have ht : t2 =
            t.filter (fun r => !(rowMatchesCs p (fiConsUpdate fi.toNat vals) r)) ++
              newRules.map (toRow p) := by
          simpa using hins.symm
        exact ht
    · intro h
      rw [hres] at h
      exact absurd h (by simp)
    · intro t3 hzero hins2
      have hfix := filter_not_eq_self (rowMatchesCs p (fiConsUpdate fi.toNat vals)) t hzero
      rw [hfix] at hins
      rw [hins] at hins2
      have ht : t3 = t2 := by
        simpa using hins2.symm
      rw [hres, hzero, ht]
      simp

/-- C4 witness: replacing the alice rule through a matching filter returns
exactly the deleted row (decoded) and leaves the table holding only the
inserted new rule; included is the zero-match clause applied where the
filter matches nothing. -/
theorem claim_C4_witness :
    ((updateFilteredPolicies [toRow pS rA] pS [rB] 0 [sAlice]).err = none →
      (updateFilteredPolicies [toRow pS rA] pS [rB] 0 [sAlice]).replaced =
        ([toRow pS rA].filter
          (rowMatchesCs pS (fiConsUpdate (Int.toNat 0) [sAlice]))).map decodeNoPtype ∧
      (updateFilteredPolicies [toRow pS rA] pS [rB] 0 [sAlice]).table =
        [toRow pS rA].filter
          (fun r => !(rowMatchesCs pS (fiConsUpdate (Int.toNat 0) [sAlice]) r)) ++
          [rB].map (toRow pS)) ∧
    (updateFilteredPolicies [toRow pS rA] pS [rB] 0 [sAlice]).err = none :=
  ⟨(claim_C4 [toRow pS rA] pS [rB] 0 [sAlice] ⟨by decide, by decide⟩).1, by decide⟩

end PgxAdapter
